import Mathlib

/-!
Shallow embedding of the Cornell movie-corpus pipeline in src/DataSource.py.

Raw corpus rows are modelled after they have been split on the field
delimiter, as structures holding the fields that the code reads by
position.  Python dicts are modelled as insertion-ordered association
lists with in-place overwrite, which is exactly the iteration and
lookup behaviour of a Python dict.  Code that can raise an exception
(dict subscription, the assert in makeTrainTest) is modelled in the
Except monad.  The random.sample result in makeTrainTest is passed in
as an explicit argument.
-/

/-- Python str.strip on the whitespace characters: drop leading and
trailing whitespace. -/
def pyStrip (s : String) : String :=
  String.mk (((s.data.dropWhile Char.isWhitespace).reverse.dropWhile Char.isWhitespace).reverse)

/-- Python str.lower, restricted to the ASCII letters the corpus uses. -/
def pyLower (s : String) : String :=
  String.mk (s.data.map Char.toLower)

/-- Python s[:n] slicing on a string. -/
def pyTake (n : Nat) (s : String) : String :=
  String.mk (s.data.take n)

/-- Model of a Python dict with string keys and values: an association
list in insertion order, keys unique by construction of dinsert. -/
abbrev Dict := List (String × String)

/-- Python dict assignment d[k] = v: overwrite the value in place when
the key is present, otherwise append the new pair at the end. -/
def dinsert (m : Dict) (k v : String) : Dict :=
  if m.any (fun p => p.1 == k) then
    m.map (fun p => if p.1 == k then (k, v) else p)
  else m ++ [(k, v)]

/-- Python membership and optional lookup on a dict. -/
def dlookup (m : Dict) (k : String) : Option String :=
  (m.find? (fun p => p.1 == k)).map (fun p => p.2)

/-- Python dict subscription d[k]: raises KeyError when the key is
missing, modelled as Except. -/
def dindex (m : Dict) (k : String) : Except Unit String :=
  match dlookup m k with
  | some v => Except.ok v
  | none => Except.error ()

/-- One row of movie_lines.txt after splitting on the delimiter:
field 0 is the line id, field 1 the character id, field 2 the movie id,
field 3 the character name, and the last field the utterance text. -/
structure LineRow where
  lineId : String
  charId : String
  movieId : String
  charName : String
  text : String

/-- One row of movie_characters_metadata.txt: field 0 is the character
id and field 1 the character name (the code reads no other field). -/
structure CharRow where
  charId : String
  name : String

/-- One row of movie_titles_metadata.txt: field 0 is the movie id and
field 2 the year (the code reads no other field). -/
structure MovieRow where
  movieId : String
  title : String
  year : String

/-- DataSource.py lines 66 to 72: the line index, mapping each stripped
line id to the stripped text of its row. -/
def buildLineMap (rows : List LineRow) : Dict :=
  rows.foldl (fun m r => dinsert m (pyStrip r.lineId) (pyStrip r.text)) []

/-- DataSource.py lines 74 to 79: the character map, mapping each
stripped and lower-cased character name to the stripped character id. -/
def buildCharMap (rows : List CharRow) : Dict :=
  rows.foldl (fun m r => dinsert m (pyLower (pyStrip r.name)) (pyStrip r.charId)) []

/-- Pairs fed to dict.update for one conversation, DataSource.py line 83:
zip(lineIds[1:], lineIds[:-1]), each non-first id paired with its
immediate predecessor. -/
def nonFirstPairs (ids : List String) : List (String × String) :=
  (ids.drop 1).zip ids.dropLast

/-- DataSource.py lines 81 to 83: the previous-line index, built by
updating one dict with the pairs of every conversation in order. -/
def buildPrevLineMap (convs : List (List String)) : Dict :=
  convs.foldl (fun m ids => (nonFirstPairs ids).foldl (fun m2 kv => dinsert m2 kv.1 kv.2) m) []

/-- DataSource.py lines 93 to 95, characterToId: when the character map
is non-empty, subscript it at the lower-cased name (KeyError when the
name is absent); when the map is empty, fall through and return None. -/
def characterToId (charMap : Dict) (character : String) : Except Unit (Option String) :=
  if charMap.length ≠ 0 then
    match dlookup charMap (pyLower character) with
    | some v => Except.ok (some v)
    | none => Except.error ()
  else Except.ok none

/-- Comparison on DataSource.py line 127: the stripped character-id
field of a row equals the requested id.  A Python comparison of a
string with None is False, covering the none case. -/
def matchesCharacter (characterId : Option String) (row : LineRow) : Bool :=
  match characterId with
  | some c => pyStrip row.charId == c
  | none => false

/-- Guard on DataSource.py line 127: the row matches the requested
character id and its stripped line id is a key of the previous-line
index. -/
def hitsCharacter (prevMap : Dict) (characterId : Option String) (row : LineRow) : Bool :=
  matchesCharacter characterId row && (dlookup prevMap (pyStrip row.lineId)).isSome

/-- Body of the loop on DataSource.py lines 124 to 129: when the guard
holds, append the text of the previous line to prompt and the text of
the line itself to response. -/
def getCharacterStep (lineMap prevMap : Dict) (characterId : Option String)
    (pr : List String × List String) (row : LineRow) :
    Except Unit (List String × List String) :=
  if hitsCharacter prevMap characterId row then do
    let prevId ← dindex prevMap (pyStrip row.lineId)
    let p ← dindex lineMap prevId
    let r ← dindex lineMap (pyStrip row.lineId)
    Except.ok (pr.1 ++ [p], pr.2 ++ [r])
  else Except.ok pr

/-- DataSource.py lines 120 to 130, getCharacter with a characterId
argument: walk the line file in order, applying the loop body to every
row. -/
def getCharacter (rows : List LineRow) (lineMap prevMap : Dict) (characterId : Option String) :
    Except Unit (List String × List String) :=
  rows.foldlM (getCharacterStep lineMap prevMap characterId) ([], [])

/-- DataSource.py line 121 combined with characterToId: getCharacter
called with a characterName argument resolves the name first. -/
def getCharacterByName (rows : List LineRow) (lineMap prevMap charMap : Dict)
    (characterName : String) : Except Unit (List String × List String) := do
  let cid ← characterToId charMap characterName
  getCharacter rows lineMap prevMap cid

/-- Element of the prompt comprehension on DataSource.py line 160:
lineMap subscripted at prevLineMap subscripted at the key. -/
def promptOf (lineMap prevMap : Dict) (kv : String × String) : Except Unit String := do
  let p ← dindex prevMap kv.1
  dindex lineMap p

/-- Element of the response comprehension on DataSource.py line 161:
lineMap subscripted at the key. -/
def responseOf (lineMap : Dict) (kv : String × String) : Except Unit String :=
  dindex lineMap kv.1

/-- DataSource.py lines 159 to 162, getData: one prompt and one
response per key of the previous-line index, in key insertion order. -/
def getData (lineMap prevMap : Dict) : Except Unit (List String × List String) := do
  let prompt ← prevMap.mapM (promptOf lineMap prevMap)
  let response ← prevMap.mapM (responseOf lineMap)
  Except.ok (prompt, response)

/-- DataSource.py lines 132 to 139, makeYearSubset: the ids of the
movies whose stripped year agrees with the requested year on the first
three characters.  The Python set is modelled as a list queried only
through membership. -/
def makeYearSubset (movies : List MovieRow) (movieYear : String) : List String :=
  (movies.filter (fun m => pyTake 3 (pyStrip m.year) == pyTake 3 movieYear)).map
    (fun m => pyStrip m.movieId)

/-- DataSource.py lines 142 to 149: the stripped texts of the line rows
whose stripped movie-id field lies in the year subset, in file order. -/
def yearLines (rows : List LineRow) (movies : List MovieRow) (movieYear : String) : List String :=
  (rows.filter (fun r => (makeYearSubset movies movieYear).contains (pyStrip r.movieId))).map
    (fun r => pyStrip r.text)

/-- DataSource.py lines 150 to 156: the loop over range(len(ys)) that
appends even-index entries to inputs and odd-index entries to outputs. -/
def parityPartition (ys : List String) : List String × List String :=
  (((List.range ys.length).filter (fun i => i % 2 == 0)).map (fun i => ys.getD i ""),
   ((List.range ys.length).filter (fun i => !(i % 2 == 0))).map (fun i => ys.getD i ""))

/-- DataSource.py lines 141 to 157, makeYearFiles: collect the year
lines, then split them by index parity into inputs and outputs. -/
def makeYearFiles (rows : List LineRow) (movies : List MovieRow) (movieYear : String) :
    List String × List String :=
  parityPartition (yearLines rows movies movieYear)

/-- Ascending insertion into a sorted list of naturals. -/
def sortInsert (x : Nat) : List Nat → List Nat
  | [] => [x]
  | y :: ys => if x ≤ y then x :: y :: ys else y :: sortInsert x ys

/-- Python sorted on a list of naturals, as insertion sort. -/
def sortNat (l : List Nat) : List Nat :=
  l.foldr sortInsert []

/-- DataSource.py line 30: sorted(set(range(l)) - testIndices), the
ascending indices below l that were not sampled. -/
def trainIndices (l : Nat) (sample : List Nat) : List Nat :=
  (List.range l).filter (fun i => !sample.contains i)

/-- DataSource.py lines 25 to 33, makeTrainTest: args is the tuple of
positional arguments and sample the result of random.sample on line 29.
args[0] on an empty args raises IndexError, a failed assert on line 28
raises AssertionError; both are modelled as Except.error. -/
def makeTrainTest {α : Type} [Inhabited α] (args : List (List α)) (sample : List Nat) :
    Except Unit (List (List α) × List (List α)) :=
  match args with
  | [] => Except.error ()
  | arg0 :: _ =>
    let l := arg0.length
    if args.all (fun arg => arg.length == l) then
      Except.ok
        (args.map (fun arg => (trainIndices l sample).map (fun i => arg.getD i default)),
         args.map (fun arg => (sortNat sample).map (fun i => arg.getD i default)))
    else Except.error ()

/-- Python round: round half to even on an exact rational. -/
def pythonRound (q : ℚ) : ℤ :=
  if Int.fract q < 1 / 2 then ⌊q⌋
  else if 1 / 2 < Int.fract q then ⌊q⌋ + 1
  else if ⌊q⌋ % 2 = 0 then ⌊q⌋ else ⌊q⌋ + 1

/-- DataSource.py lines 17 to 22, writeToFile: the contents written to
the enc file and to the dec file, each being the newline join of its
list of lines. -/
def writeToFile (prompt response : List String) : String × String :=
  (String.intercalate "\n" prompt, String.intercalate "\n" response)

/-! Lemmas on the dict model. -/

theorem find?_overwrite_self (m : Dict) (k v : String)
    (h : m.any (fun p => p.1 == k) = true) :
    (m.map (fun p => if p.1 == k then (k, v) else p)).find? (fun p => p.1 == k)
      = some (k, v) := by
  induction m with
  | nil => simp at h
  | cons p rest ih =>
    simp only [List.map_cons]
    by_cases hp : p.1 = k
    · rw [if_pos (by simpa using hp)]
      exact List.find?_cons_of_pos _ (by simp)
    · rw [if_neg (by simpa using hp)]
      rw [List.find?_cons_of_neg _ (by simpa using hp)]
      have hrest : rest.any (fun p => p.1 == k) = true := by
        simp only [List.any_cons, Bool.or_eq_true] at h
        rcases h with h | h
        · exact absurd (by simpa using h) hp
        · exact h
      exact ih hrest

theorem find?_overwrite_ne (m : Dict) (k v k2 : String) (h : k2 ≠ k) :
    (m.map (fun p => if p.1 == k then (k, v) else p)).find? (fun p => p.1 == k2)
      = m.find? (fun p => p.1 == k2) := by
  induction m with
  | nil => rfl
  | cons p rest ih =>
    simp only [List.map_cons]
    by_cases hp : p.1 = k
    · rw [if_pos (by simpa using hp)]
      rw [List.find?_cons_of_neg _ (by simpa using Ne.symm h)]
      rw [List.find?_cons_of_neg _ (by simp [hp]; exact fun hh => h hh.symm)]
      exact ih
    · rw [if_neg (by simpa using hp)]
      by_cases hp2 : p.1 = k2
      · rw [List.find?_cons_of_pos _ (by simpa using hp2),
          List.find?_cons_of_pos _ (by simpa using hp2)]
      · rw [List.find?_cons_of_neg _ (by simpa using hp2),
          List.find?_cons_of_neg _ (by simpa using hp2)]
        exact ih

theorem dlookup_dinsert (m : Dict) (k v k2 : String) :
    dlookup (dinsert m k v) k2 = if k2 = k then some v else dlookup m k2 := by
  unfold dinsert
  by_cases hany : m.any (fun p => p.1 == k) = true
  · rw [if_pos hany]
    by_cases hk : k2 = k
    · subst hk
      rw [if_pos rfl]
      rw [dlookup, find?_overwrite_self m k2 v hany]
      rfl
    · rw [if_neg hk]
      rw [dlookup, find?_overwrite_ne m k v k2 hk]
      rfl
  · rw [if_neg hany]
    have hnone : m.find? (fun p => p.1 == k) = none := by
      rw [List.find?_eq_none]
      intro x hx hxk
      exact hany (List.any_eq_true.mpr ⟨x, hx, hxk⟩)
    by_cases hk : k2 = k
    · subst hk
      rw [if_pos rfl]
      rw [dlookup, List.find?_append, hnone, Option.none_or,
        List.find?_cons_of_pos _ (by simp)]
      rfl
    · rw [if_neg hk]
      have hone : List.find? (fun p => p.1 == k2) [(k, v)] = none :=
        List.find?_cons_of_neg _ (by simpa using Ne.symm hk)
      rw [dlookup, List.find?_append, hone, Option.or_none]
      rfl

/-- Folding dict assignments over a pair list looks up to the value of
the last pair carrying the key, and falls back to the initial dict. -/
theorem dlookup_foldl_dinsert (pairs : List (String × String)) (m0 : Dict) (k : String) :
    dlookup (pairs.foldl (fun m kv => dinsert m kv.1 kv.2) m0) k
      = ((pairs.reverse.find? (fun p => p.1 == k)).map Prod.snd).or (dlookup m0 k) := by
  induction pairs generalizing m0 with
  | nil => simp
  | cons kv rest ih =>
    simp only [List.foldl_cons, List.reverse_cons, List.find?_append]
    rw [ih, dlookup_dinsert]
    by_cases hk : k = kv.1
    · rw [if_pos hk]
      have h1 : List.find? (fun p => p.1 == k) [kv] = some kv :=
        List.find?_cons_of_pos _ (by simp [hk.symm])
      rw [h1]
      cases rest.reverse.find? (fun p => p.1 == k) <;> simp
    · rw [if_neg hk]
      have h1 : List.find? (fun p => p.1 == k) [kv] = none :=
        List.find?_cons_of_neg _ (by simpa using fun hh => hk hh.symm)
      rw [h1, Option.or_none]

/-- Lookup in a dict with no duplicate keys returns the value of any
member pair carrying the key. -/
theorem dlookup_of_mem_nodupkeys (m : Dict) (kv : String × String)
    (hnd : (m.map Prod.fst).Nodup) (hmem : kv ∈ m) :
    dlookup m kv.1 = some kv.2 := by
  induction m with
  | nil => simp at hmem
  | cons p rest ih =>
    simp only [List.map_cons, List.nodup_cons] at hnd
    rcases List.mem_cons.mp hmem with h | h
    · subst h
      simp [dlookup, List.find?_cons]
    · have hne : ¬p.1 = kv.1 := by
        intro he
        exact hnd.1 (he ▸ List.mem_map.mpr ⟨kv, h, rfl⟩)
      simpa [dlookup, List.find?_cons, hne] using ih hnd.2 h

/-- C2 counterexample: with two metadata rows whose lower-cased names
are both bob, the first carrying id C1 and the second id C2, the built
character map resolves bob to C2, the id of the second row, not to C1,
the id of the first row as the claim states. -/
theorem buildCharMap_first_wins_cex :
    dlookup (buildCharMap [⟨"C1", "BOB"⟩, ⟨"C2", "Bob"⟩]) "bob" ≠ some "C1" ∧
      dlookup (buildCharMap [⟨"C1", "BOB"⟩, ⟨"C2", "Bob"⟩]) "bob" = some "C2" := by
  exact ⟨by decide, by decide⟩

/-- C2 (amended): the character map sends a name to the character id of
the last row in file order whose stripped, lower-cased name equals it;
on duplicate lower-cased names the last occurrence wins. -/
theorem buildCharMap_last_wins (rows : List CharRow) (k : String) :
    dlookup (buildCharMap rows) k
      = (rows.reverse.find? (fun r => pyLower (pyStrip r.name) == k)).map
          (fun r => pyStrip r.charId) := by
  have h1 : buildCharMap rows
      = (rows.map (fun r => (pyLower (pyStrip r.name), pyStrip r.charId))).foldl
          (fun m kv => dinsert m kv.1 kv.2) [] := by
    rw [buildCharMap, List.foldl_map]
  rw [h1, dlookup_foldl_dinsert, ← List.map_reverse, List.find?_map]
  simp only [Function.comp_def, Option.map_map, dlookup, List.find?_nil,
    Option.map_none, Option.or_none]
  cases rows.reverse.find? (fun x => pyLower (pyStrip x.name) == k) <;> rfl

theorem buildPrevLineMap_eq (convs : List (List String)) :
    buildPrevLineMap convs
      = (convs.flatMap nonFirstPairs).foldl (fun m kv => dinsert m kv.1 kv.2) [] := by
  suffices h : ∀ m0 : Dict,
      convs.foldl (fun m ids => (nonFirstPairs ids).foldl (fun m2 kv => dinsert m2 kv.1 kv.2) m) m0
        = (convs.flatMap nonFirstPairs).foldl (fun m kv => dinsert m kv.1 kv.2) m0 from h []
  induction convs with
  | nil => intro m0; rfl
  | cons ids rest ih =>
    intro m0
    simp only [List.foldl_cons, List.flatMap_cons, List.foldl_append]
    exact ih _

/-- Lookup in the previous-line index is governed by the last inserted
pair carrying the key, over the pairs of all conversations flattened in
processing order. -/
theorem dlookup_buildPrevLineMap (convs : List (List String)) (k : String) :
    dlookup (buildPrevLineMap convs) k
      = ((convs.flatMap nonFirstPairs).reverse.find? (fun p => p.1 == k)).map Prod.snd := by
  rw [buildPrevLineMap_eq, dlookup_foldl_dinsert]
  simp [dlookup]

theorem key_mem_of_mem_pairs {convs : List (List String)} {p : String × String}
    (hp : p ∈ convs.flatMap nonFirstPairs) : ∃ ids ∈ convs, p.1 ∈ ids.drop 1 := by
  rcases List.mem_flatMap.mp hp with ⟨ids, hids, hpin⟩
  obtain ⟨p1, p2⟩ := p
  exact ⟨ids, hids, (List.of_mem_zip hpin).1⟩

theorem find?_reverse_none_of_no_key (Y : List (String × String)) (k : String)
    (h : ∀ p ∈ Y, ¬p.1 = k) : Y.reverse.find? (fun p => p.1 == k) = none := by
  rw [List.find?_eq_none]
  intro p hp
  simpa using h p (List.mem_reverse.mp hp)

/-- C5 counterexample: in the corpus whose conversations are
[A, B, C] and then [X, B], the previous-line index maps B to X, the
predecessor from the later conversation, so it does not contain the
entry B to A required by the claim for the conversation [A, B, C]. -/
theorem prevLineMap_cex :
    (["A", "B", "C"] : List String) ∈ [["A", "B", "C"], ["X", "B"]] ∧
      dlookup (buildPrevLineMap [["A", "B", "C"], ["X", "B"]]) "B" ≠ some "A" ∧
      dlookup (buildPrevLineMap [["A", "B", "C"], ["X", "B"]]) "B" = some "X" := by
  exact ⟨by decide, by decide, by decide⟩

/-- C5 (amended): for a conversation [a, b, c], the previous-line index
contains b mapped to a and c mapped to b provided b and c do not recur
as non-first elements of a later-processed conversation (on such a
recurrence the last-processed conversation wins), and contains no entry
for a provided a appears as a non-first element of no conversation. -/
theorem prevLineMap_adjacency (pre post : List (List String)) (a b c : String)
    (hbc : b ≠ c)
    (hbpost : ∀ ids ∈ post, b ∉ ids.drop 1)
    (hcpost : ∀ ids ∈ post, c ∉ ids.drop 1)
    (ha : ∀ ids ∈ pre ++ [a, b, c] :: post, a ∉ ids.drop 1) :
    dlookup (buildPrevLineMap (pre ++ [a, b, c] :: post)) b = some a ∧
      dlookup (buildPrevLineMap (pre ++ [a, b, c] :: post)) c = some b ∧
      dlookup (buildPrevLineMap (pre ++ [a, b, c] :: post)) a = none := by
  have hsplit : (pre ++ [a, b, c] :: post).flatMap nonFirstPairs
      = pre.flatMap nonFirstPairs ++ ([(b, a), (c, b)] ++ post.flatMap nonFirstPairs) := by
    rw [List.flatMap_append, List.flatMap_cons]
    rfl
  have hrev : ((pre ++ [a, b, c] :: post).flatMap nonFirstPairs).reverse
      = (post.flatMap nonFirstPairs).reverse
          ++ ([(c, b), (b, a)] ++ (pre.flatMap nonFirstPairs).reverse) := by
    rw [hsplit, List.reverse_append, List.reverse_append]
    simp
  have hpostb : ((post.flatMap nonFirstPairs).reverse).find? (fun p => p.1 == b) = none := by
    apply find?_reverse_none_of_no_key
    intro p hp he
    rcases key_mem_of_mem_pairs hp with ⟨ids, hids, hkey⟩
    exact hbpost ids hids (he ▸ hkey)
  have hpostc : ((post.flatMap nonFirstPairs).reverse).find? (fun p => p.1 == c) = none := by
    apply find?_reverse_none_of_no_key
    intro p hp he
    rcases key_mem_of_mem_pairs hp with ⟨ids, hids, hkey⟩
    exact hcpost ids hids (he ▸ hkey)
  refine ⟨?_, ?_, ?_⟩
  · rw [dlookup_buildPrevLineMap, hrev, List.find?_append, hpostb, Option.none_or,
      List.find?_append]
    have h1 : List.find? (fun p => p.1 == b) [(c, b), (b, a)] = some (b, a) := by
      rw [List.find?_cons_of_neg _ (by simpa using Ne.symm hbc)]
      exact List.find?_cons_of_pos _ (by simp)
    rw [h1]
    rfl
  · rw [dlookup_buildPrevLineMap, hrev, List.find?_append, hpostc, Option.none_or,
      List.find?_append]
    have h1 : List.find? (fun p => p.1 == c) [(c, b), (b, a)] = some (c, b) :=
      List.find?_cons_of_pos _ (by simp)
    rw [h1]
    rfl
  · rw [dlookup_buildPrevLineMap]
    have hnone : (((pre ++ [a, b, c] :: post).flatMap nonFirstPairs).reverse).find?
        (fun p => p.1 == a) = none := by
      apply find?_reverse_none_of_no_key
      intro p hp he
      rcases key_mem_of_mem_pairs hp with ⟨ids, hids, hkey⟩
      exact ha ids hids (he ▸ hkey)
    rw [hnone]
    rfl

/-- C5 witness: the amended adjacency statement instantiated on a
concrete conversation list. -/
theorem prevLineMap_adjacency_witness :
    dlookup (buildPrevLineMap ([["P", "Q"]] ++ ["A", "B", "C"] :: [["X", "Y"]])) "B" = some "A" ∧
      dlookup (buildPrevLineMap ([["P", "Q"]] ++ ["A", "B", "C"] :: [["X", "Y"]])) "C" = some "B" ∧
      dlookup (buildPrevLineMap ([["P", "Q"]] ++ ["A", "B", "C"] :: [["X", "Y"]])) "A" = none :=
  prevLineMap_adjacency [["P", "Q"]] [["X", "Y"]] "A" "B" "C"
    (by decide) (by decide) (by decide) (by decide)

/-- Calling getCharacter with characterId resolved to None appends
nothing: the comparison on line 127 is False for every row. -/
theorem getCharacter_none (rows : List LineRow) (lineMap prevMap : Dict) :
    getCharacter rows lineMap prevMap none = Except.ok ([], []) := by
  suffices h : ∀ pr : List String × List String,
      rows.foldlM (getCharacterStep lineMap prevMap none) pr = Except.ok pr from h ([], [])
  induction rows with
  | nil => intro pr; rfl
  | cons row rest ih =>
    intro pr
    rw [List.foldlM_cons]
    have hstep : getCharacterStep lineMap prevMap none pr row = Except.ok pr := by
      rw [getCharacterStep]
      have : hitsCharacter prevMap none row = false := by
        rw [hitsCharacter, matchesCharacter]
        rfl
      rw [this]
      rfl
    rw [hstep]
    exact ih pr

/-- C3 counterexample: with the non-empty character map binding alice
to C1 only, looking up the absent name Bob raises KeyError, and so does
pair extraction through that name, instead of yielding an empty pair
sequence as the claim states. -/
theorem characterToId_missing_cex :
    ([("alice", "C1")] : Dict) ≠ [] ∧
      dlookup [("alice", "C1")] (pyLower "Bob") = none ∧
      characterToId [("alice", "C1")] "Bob" = Except.error () ∧
      getCharacterByName [] [] [] [("alice", "C1")] "Bob" = Except.error () := by
  exact ⟨by decide, by decide, by rfl, by rfl⟩

/-- C3 (amended): when the character map is empty, the name resolves to
None and pair extraction returns empty prompt and response sequences
without failing; when the character map is non-empty and the name has
no entry, the lookup raises KeyError, which pair extraction by name
propagates as an error. -/
theorem getCharacterByName_missing (rows : List LineRow) (lineMap prevMap charMap : Dict)
    (name : String) :
    (charMap = [] →
      getCharacterByName rows lineMap prevMap charMap name = Except.ok ([], [])) ∧
      (charMap ≠ [] → dlookup charMap (pyLower name) = none →
        getCharacterByName rows lineMap prevMap charMap name = Except.error ()) := by
  constructor
  · intro he
    subst he
    rw [getCharacterByName]
    have h1 : characterToId [] name = Except.ok none := rfl
    rw [h1]
    show getCharacter rows lineMap prevMap none = Except.ok ([], [])
    exact getCharacter_none rows lineMap prevMap
  · intro hne hlook
    rw [getCharacterByName]
    have h1 : characterToId charMap name = Except.error () := by
      rw [characterToId, if_pos (by simpa [List.length_eq_zero] using hne), hlook]
    rw [h1]
    rfl

/-- C3 witness: the amended statement instantiated on a concrete
character map, in both the empty-map and the missing-name case. -/
theorem getCharacterByName_missing_witness :
    getCharacterByName [] [] [] [] "Bob" = Except.ok ([], []) ∧
      getCharacterByName [] [] [] [("alice", "C1")] "Zoe" = Except.error () :=
  ⟨(getCharacterByName_missing [] [] [] [] "Bob").1 rfl,
    (getCharacterByName_missing [] [] [] [("alice", "C1")] "Zoe").2 (by decide) (by decide)⟩

theorem mapM_ok_of_forall {α : Type} (l : List α) (f : α → Except Unit String) (g : α → String)
    (h : ∀ x ∈ l, f x = Except.ok (g x)) : l.mapM f = Except.ok (l.map g) := by
  induction l with
  | nil => rfl
  | cons a t ih =>
    rw [List.mapM_cons, h a (List.mem_cons_self a t),
      ih (fun x hx => h x (List.mem_cons_of_mem a hx))]
    rfl

theorem mapM_ok_mem {α : Type} (l : List α) (f : α → Except Unit String) (ys : List String)
    (h : l.mapM f = Except.ok ys) : ∀ x ∈ l, ∃ y, f x = Except.ok y := by
  induction l generalizing ys with
  | nil => intro x hx; exact absurd hx (List.not_mem_nil x)
  | cons a t ih =>
    rw [List.mapM_cons] at h
    cases hfa : f a with
    | error e =>
      rw [hfa] at h
      exact absurd (show (Except.error e : Except Unit (List String)) = Except.ok ys from h)
        (by intro hh; cases hh)
    | ok y =>
      rw [hfa] at h
      have h2 : (t.mapM f >>= fun ys2 => pure (y :: ys2)) = Except.ok ys := h
      cases hmt : t.mapM f with
      | error e =>
        rw [hmt] at h2
        exact absurd (show (Except.error e : Except Unit (List String)) = Except.ok ys from h2)
          (by intro hh; cases hh)
      | ok ys2 =>
        intro x hx
        rcases List.mem_cons.mp hx with rfl | hx2
        · exact ⟨y, hfa⟩
        · exact ih ys2 hmt x hx2

theorem mapM_ok_eq {α : Type} (l : List α) (f : α → Except Unit String) (ys : List String)
    (h : l.mapM f = Except.ok ys) : ys = l.map (fun x => ((f x).toOption).getD "") := by
  induction l generalizing ys with
  | nil =>
    rw [List.mapM_nil] at h
    cases h
    rfl
  | cons a t ih =>
    rw [List.mapM_cons] at h
    cases hfa : f a with
    | error e =>
      rw [hfa] at h
      cases show (Except.error e : Except Unit (List String)) = Except.ok ys from h
    | ok y =>
      rw [hfa] at h
      have h2 : (t.mapM f >>= fun ys2 => pure (y :: ys2)) = Except.ok ys := h
      cases hmt : t.mapM f with
      | error e =>
        rw [hmt] at h2
        cases show (Except.error e : Except Unit (List String)) = Except.ok ys from h2
      | ok ys2 =>
        rw [hmt] at h2
        cases show (Except.ok (y :: ys2) : Except Unit (List String)) = Except.ok ys from h2
        rw [List.map_cons, hfa, ← ih ys2 hmt]
        rfl

/-- C6: with every prompt and response lookup succeeding, getData
returns one dialogue pair per key of the previous-line index in key
order, the prompt being the indexed text of the predecessor recorded
for the key and the response the indexed text of the key itself. -/
theorem getData_pairs (lineMap prevMap : Dict)
    (hnd : (prevMap.map Prod.fst).Nodup)
    (hp : ∀ kv ∈ prevMap, (dlookup lineMap kv.2).isSome = true)
    (hr : ∀ kv ∈ prevMap, (dlookup lineMap kv.1).isSome = true) :
    getData lineMap prevMap
      = Except.ok
          (prevMap.map (fun kv => (dlookup lineMap kv.2).getD ""),
           prevMap.map (fun kv => (dlookup lineMap kv.1).getD "")) ∧
      (prevMap.map (fun kv => (dlookup lineMap kv.2).getD "")).length = prevMap.length ∧
      (prevMap.map (fun kv => (dlookup lineMap kv.1).getD "")).length = prevMap.length := by
  refine ⟨?_, by simp, by simp⟩
  have hprompt : prevMap.mapM (promptOf lineMap prevMap)
      = Except.ok (prevMap.map (fun kv => (dlookup lineMap kv.2).getD "")) := by
    apply mapM_ok_of_forall
    intro kv hkv
    obtain ⟨v, hv⟩ := Option.isSome_iff_exists.mp (hp kv hkv)
    have h1 : dindex prevMap kv.1 = Except.ok kv.2 := by
      rw [dindex, dlookup_of_mem_nodupkeys prevMap kv hnd hkv]
    rw [promptOf, h1]
    show dindex lineMap kv.2 = _
    rw [dindex, hv]
    rfl
  have hresp : prevMap.mapM (responseOf lineMap)
      = Except.ok (prevMap.map (fun kv => (dlookup lineMap kv.1).getD "")) := by
    apply mapM_ok_of_forall
    intro kv hkv
    obtain ⟨v, hv⟩ := Option.isSome_iff_exists.mp (hr kv hkv)
    rw [responseOf, dindex, hv]
    rfl
  rw [getData, hprompt]
  show prevMap.mapM (responseOf lineMap) >>= _ = _
  rw [hresp]
  rfl

/-- C6 witness: the getData statement instantiated on the two-line
corpus with the single conversation L1, L2. -/
theorem getData_pairs_witness :
    getData [("L1", "hi"), ("L2", "yo")] [("L2", "L1")] = Except.ok (["hi"], ["yo"]) :=
  ((getData_pairs [("L1", "hi"), ("L2", "yo")] [("L2", "L1")]
    (by decide) (by decide) (by decide)).1).trans (by rfl)

/-- Success characterization of the getCharacter loop from an arbitrary
accumulator: when every lookup made for a matching row succeeds, the
loop appends one prompt and one response per row passing the guard, in
file order. -/
theorem getCharacter_fold_ok (rows : List LineRow) (lineMap prevMap : Dict)
    (cid : Option String)
    (h : ∀ row ∈ rows, hitsCharacter prevMap cid row = true →
      ((dlookup prevMap (pyStrip row.lineId)).bind (dlookup lineMap)).isSome = true ∧
        (dlookup lineMap (pyStrip row.lineId)).isSome = true) :
    ∀ pr : List String × List String,
      rows.foldlM (getCharacterStep lineMap prevMap cid) pr
        = Except.ok
            (pr.1 ++ (rows.filter (hitsCharacter prevMap cid)).map
                (fun row => ((dlookup prevMap (pyStrip row.lineId)).bind (dlookup lineMap)).getD ""),
             pr.2 ++ (rows.filter (hitsCharacter prevMap cid)).map
                (fun row => (dlookup lineMap (pyStrip row.lineId)).getD "")) := by
  induction rows with
  | nil => intro pr; simp only [List.foldlM_nil, List.filter_nil, List.map_nil,
      List.append_nil]; rfl
  | cons row rest ih =>
    intro pr
    have hrest : ∀ r2 ∈ rest, hitsCharacter prevMap cid r2 = true →
        ((dlookup prevMap (pyStrip r2.lineId)).bind (dlookup lineMap)).isSome = true ∧
          (dlookup lineMap (pyStrip r2.lineId)).isSome = true :=
      fun r2 hr2 => h r2 (List.mem_cons_of_mem row hr2)
    rw [List.foldlM_cons]
    by_cases hhit : hitsCharacter prevMap cid row = true
    · obtain ⟨h1, h2⟩ := h row (List.mem_cons_self row rest) hhit
      have hpm : (dlookup prevMap (pyStrip row.lineId)).isSome = true := by
        rw [hitsCharacter, Bool.and_eq_true] at hhit
        exact hhit.2
      obtain ⟨pv, hpv⟩ := Option.isSome_iff_exists.mp hpm
      rw [hpv, Option.some_bind] at h1
      obtain ⟨pt, hpt⟩ := Option.isSome_iff_exists.mp h1
      obtain ⟨rt, hrt⟩ := Option.isSome_iff_exists.mp h2
      have hstep : getCharacterStep lineMap prevMap cid pr row
          = Except.ok (pr.1 ++ [pt], pr.2 ++ [rt]) := by
        rw [getCharacterStep, if_pos hhit]
        rw [show dindex prevMap (pyStrip row.lineId) = Except.ok pv from by rw [dindex, hpv]]
        show (dindex lineMap pv >>= _) = _
        rw [show dindex lineMap pv = Except.ok pt from by rw [dindex, hpt]]
        show (dindex lineMap (pyStrip row.lineId) >>= _) = _
        rw [show dindex lineMap (pyStrip row.lineId) = Except.ok rt from by rw [dindex, hrt]]
        rfl
      rw [hstep]
      refine (ih hrest (pr.1 ++ [pt], pr.2 ++ [rt])).trans ?_
      rw [List.filter_cons, if_pos hhit]
      simp [hpv, hpt, hrt]
    · have hstep : getCharacterStep lineMap prevMap cid pr row = Except.ok pr := by
        rw [getCharacterStep, if_neg hhit]
      rw [hstep]
      refine (ih hrest pr).trans ?_
      rw [List.filter_cons, if_neg hhit]

/-- C7: for a requested character id, getCharacter emits, in line-table
file order, exactly one pair per row whose stripped character id equals
the requested id and whose stripped line id is a key of the
previous-line index, the prompt being the indexed text of the
predecessor and the response the indexed text of the line itself, and
emits nothing else. -/
theorem getCharacter_filter (rows : List LineRow) (lineMap prevMap : Dict) (c : String)
    (h : ∀ row ∈ rows, hitsCharacter prevMap (some c) row = true →
      ((dlookup prevMap (pyStrip row.lineId)).bind (dlookup lineMap)).isSome = true ∧
        (dlookup lineMap (pyStrip row.lineId)).isSome = true) :
    getCharacter rows lineMap prevMap (some c)
      = Except.ok
          ((rows.filter (hitsCharacter prevMap (some c))).map
              (fun row => ((dlookup prevMap (pyStrip row.lineId)).bind (dlookup lineMap)).getD ""),
           (rows.filter (hitsCharacter prevMap (some c))).map
              (fun row => (dlookup lineMap (pyStrip row.lineId)).getD "")) := by
  rw [getCharacter]
  exact (getCharacter_fold_ok rows lineMap prevMap (some c) h ([], [])).trans (by simp)

/-- C7 witness: on the line table L1 spoken by C1 with text hi, L2
spoken by C2 with text hello, and the single conversation L1, L2,
extraction for C2 yields exactly the pair hi, hello and extraction for
C1 yields nothing. -/
theorem getCharacter_filter_witness :
    getCharacter [⟨"L1", "C1", "m0", "BOB", "hi"⟩, ⟨"L2", "C2", "m0", "ALICE", "hello"⟩]
        (buildLineMap [⟨"L1", "C1", "m0", "BOB", "hi"⟩, ⟨"L2", "C2", "m0", "ALICE", "hello"⟩])
        (buildPrevLineMap [["L1", "L2"]]) (some "C2")
      = Except.ok (["hi"], ["hello"]) ∧
      getCharacter [⟨"L1", "C1", "m0", "BOB", "hi"⟩, ⟨"L2", "C2", "m0", "ALICE", "hello"⟩]
        (buildLineMap [⟨"L1", "C1", "m0", "BOB", "hi"⟩, ⟨"L2", "C2", "m0", "ALICE", "hello"⟩])
        (buildPrevLineMap [["L1", "L2"]]) (some "C1")
      = Except.ok ([], []) :=
  ⟨(getCharacter_filter _ _ _ "C2" (by decide)).trans (by rfl),
    (getCharacter_filter _ _ _ "C1" (by decide)).trans (by rfl)⟩

/-- Decomposition of a successful getCharacter loop run: the two
accumulated lists extend the accumulator by maps of one list of line
ids, one prompt and one response per id. -/
theorem getCharacter_fold_aligned (rows : List LineRow) (lineMap prevMap : Dict)
    (cid : Option String) :
    ∀ (pr : List String × List String) (p r : List String),
      rows.foldlM (getCharacterStep lineMap prevMap cid) pr = Except.ok (p, r) →
      ∃ ids : List String,
        p = pr.1 ++ ids.map (fun i => (dlookup lineMap ((dlookup prevMap i).getD "")).getD "") ∧
          r = pr.2 ++ ids.map (fun i => (dlookup lineMap i).getD "") := by
  induction rows with
  | nil =>
    intro pr p r h
    cases show (Except.ok pr : Except Unit (List String × List String))
        = Except.ok (p, r) from h
    exact ⟨[], by simp, by simp⟩
  | cons row rest ih =>
    intro pr p r h
    rw [List.foldlM_cons] at h
    cases hstep : getCharacterStep lineMap prevMap cid pr row with
    | error e =>
      rw [hstep] at h
      cases show (Except.error e : Except Unit (List String × List String))
          = Except.ok (p, r) from h
    | ok pr2 =>
      rw [hstep] at h
      have h3 : rest.foldlM (getCharacterStep lineMap prevMap cid) pr2 = Except.ok (p, r) := h
      by_cases hhit : hitsCharacter prevMap cid row = true
      · rw [getCharacterStep, if_pos hhit] at hstep
        cases hpv : dlookup prevMap (pyStrip row.lineId) with
        | none =>
          rw [show dindex prevMap (pyStrip row.lineId) = Except.error () from
            by rw [dindex, hpv]] at hstep
          cases show (Except.error () : Except Unit (List String × List String))
              = Except.ok pr2 from hstep
        | some pv =>
          rw [show dindex prevMap (pyStrip row.lineId) = Except.ok pv from
            by rw [dindex, hpv]] at hstep
          have hstep2 : (do
              let p2 ← dindex lineMap pv
              let r2 ← dindex lineMap (pyStrip row.lineId)
              Except.ok (pr.1 ++ [p2], pr.2 ++ [r2])) = Except.ok pr2 := hstep
          cases hpt : dlookup lineMap pv with
          | none =>
            rw [show dindex lineMap pv = Except.error () from by rw [dindex, hpt]] at hstep2
            cases show (Except.error () : Except Unit (List String × List String))
                = Except.ok pr2 from hstep2
          | some pt =>
            rw [show dindex lineMap pv = Except.ok pt from by rw [dindex, hpt]] at hstep2
            have hstep3 : (do
                let r2 ← dindex lineMap (pyStrip row.lineId)
                Except.ok (pr.1 ++ [pt], pr.2 ++ [r2])) = Except.ok pr2 := hstep2
            cases hrt : dlookup lineMap (pyStrip row.lineId) with
            | none =>
              rw [show dindex lineMap (pyStrip row.lineId) = Except.error () from
                by rw [dindex, hrt]] at hstep3
              cases show (Except.error () : Except Unit (List String × List String))
                  = Except.ok pr2 from hstep3
            | some rt =>
              rw [show dindex lineMap (pyStrip row.lineId) = Except.ok rt from
                by rw [dindex, hrt]] at hstep3
              cases show (Except.ok (pr.1 ++ [pt], pr.2 ++ [rt]) : Except Unit _)
                  = Except.ok pr2 from hstep3
              obtain ⟨ids, hp1, hr1⟩ := ih _ _ _ h3
              refine ⟨pyStrip row.lineId :: ids, ?_, ?_⟩
              · rw [hp1]
                simp [hpv, hpt]
              · rw [hr1]
                simp [hrt]
      · rw [getCharacterStep, if_neg hhit] at hstep
        cases show (Except.ok pr : Except Unit (List String × List String))
            = Except.ok pr2 from hstep
        exact ih _ _ _ h3

/-- C10: whenever getCharacter or getData returns, the prompt and
response lists have equal length and are index-aligned: both are maps
over one list of line ids, position i of the prompt list derived by the
predecessor double lookup and position i of the response list by the
direct lookup of the same id. -/
theorem extraction_aligned (rows : List LineRow) (lineMap prevMap : Dict)
    (cid : Option String) :
    (∀ p r, getCharacter rows lineMap prevMap cid = Except.ok (p, r) →
      p.length = r.length ∧ ∃ ids : List String,
        p = ids.map (fun i => (dlookup lineMap ((dlookup prevMap i).getD "")).getD "") ∧
          r = ids.map (fun i => (dlookup lineMap i).getD "")) ∧
      (∀ p r, getData lineMap prevMap = Except.ok (p, r) →
        p.length = r.length ∧ ∃ ids : List String,
          p = ids.map (fun i => (dlookup lineMap ((dlookup prevMap i).getD "")).getD "") ∧
            r = ids.map (fun i => (dlookup lineMap i).getD "")) := by
  constructor
  · intro p r h
    obtain ⟨ids, hp1, hr1⟩ :=
      getCharacter_fold_aligned rows lineMap prevMap cid ([], []) p r h
    simp only [List.nil_append] at hp1 hr1
    exact ⟨by rw [hp1, hr1, List.length_map, List.length_map], ids, hp1, hr1⟩
  · intro p r h
    rw [getData] at h
    cases hmp : prevMap.mapM (promptOf lineMap prevMap) with
    | error e =>
      rw [hmp] at h
      cases show (Except.error e : Except Unit (List String × List String))
          = Except.ok (p, r) from h
    | ok P =>
      rw [hmp] at h
      have h2 : (prevMap.mapM (responseOf lineMap) >>=
          fun response => Except.ok (P, response)) = Except.ok (p, r) := h
      cases hmr : prevMap.mapM (responseOf lineMap) with
      | error e =>
        rw [hmr] at h2
        cases show (Except.error e : Except Unit (List String × List String))
            = Except.ok (p, r) from h2
      | ok R =>
        rw [hmr] at h2
        cases show (Except.ok (P, R) : Except Unit (List String × List String))
            = Except.ok (p, r) from h2
        have hP := mapM_ok_eq prevMap (promptOf lineMap prevMap) p hmp
        have hR := mapM_ok_eq prevMap (responseOf lineMap) r hmr
        have hPok := mapM_ok_mem prevMap (promptOf lineMap prevMap) p hmp
        refine ⟨?_, prevMap.map Prod.fst, ?_, ?_⟩
        · rw [hP, hR, List.length_map, List.length_map]
        · rw [hP, List.map_map]
          apply List.map_congr_left
          intro kv hkv
          obtain ⟨y, hy⟩ := hPok kv hkv
          cases hpv : dlookup prevMap kv.1 with
          | none =>
            rw [promptOf,
              show dindex prevMap kv.1 = Except.error () from by rw [dindex, hpv]] at hy
            cases show (Except.error () : Except Unit String) = Except.ok y from hy
          | some pv =>
            rw [promptOf,
              show dindex prevMap kv.1 = Except.ok pv from by rw [dindex, hpv]] at hy
            have hy2 : dindex lineMap pv = Except.ok y := hy
            cases hpt : dlookup lineMap pv with
            | none =>
              rw [dindex, hpt] at hy2
              cases hy2
            | some pt =>
              rw [dindex, hpt] at hy2
              cases hy2
              have hval : promptOf lineMap prevMap kv = Except.ok y := by
                rw [promptOf,
                  show dindex prevMap kv.1 = Except.ok pv from by rw [dindex, hpv]]
                show dindex lineMap pv = Except.ok y
                rw [dindex, hpt]
              rw [hval]
              show y = (dlookup lineMap ((dlookup prevMap kv.1).getD "")).getD ""
              rw [hpv]
              show y = (dlookup lineMap pv).getD ""
              rw [hpt]
              rfl
        · rw [hR, List.map_map]
          apply List.map_congr_left
          intro kv _
          show ((responseOf lineMap kv).toOption).getD "" = (dlookup lineMap kv.1).getD ""
          rw [responseOf, dindex]
          cases dlookup lineMap kv.1 <;> rfl

/-- C10 witness: the alignment statement instantiated on the
two-line corpus, through the getCharacter conjunct. -/
theorem extraction_aligned_witness :
    (["hi"] : List String).length = (["hello"] : List String).length ∧
      ∃ ids : List String,
        ["hi"] = ids.map (fun i =>
          (dlookup (buildLineMap [⟨"L1", "C1", "m0", "BOB", "hi"⟩, ⟨"L2", "C2", "m0", "ALICE", "hello"⟩])
            ((dlookup (buildPrevLineMap [["L1", "L2"]]) i).getD "")).getD "") ∧
          ["hello"] = ids.map (fun i =>
            (dlookup (buildLineMap [⟨"L1", "C1", "m0", "BOB", "hi"⟩, ⟨"L2", "C2", "m0", "ALICE", "hello"⟩]) i).getD "") :=
  (extraction_aligned [⟨"L1", "C1", "m0", "BOB", "hi"⟩, ⟨"L2", "C2", "m0", "ALICE", "hello"⟩]
      (buildLineMap [⟨"L1", "C1", "m0", "BOB", "hi"⟩, ⟨"L2", "C2", "m0", "ALICE", "hello"⟩])
      (buildPrevLineMap [["L1", "L2"]]) (some "C2")).1 ["hi"] ["hello"] (by rfl)

theorem filter_even_range (n : Nat) :
    (List.range n).filter (fun i => i % 2 == 0)
      = (List.range ((n + 1) / 2)).map (fun j => 2 * j) := by
  induction n with
  | zero => rfl
  | succ n ih =>
    rw [List.range_succ, List.filter_append, ih]
    by_cases h : n % 2 = 0
    · have h1 : List.filter (fun i => i % 2 == 0) [n] = [n] := by
        simp [List.filter_cons, h]
      rw [h1]
      have h2 : (n + 1 + 1) / 2 = (n + 1) / 2 + 1 := by omega
      rw [h2, List.range_succ, List.map_append]
      have h3 : 2 * ((n + 1) / 2) = n := by omega
      simp [h3]
    · have h1 : List.filter (fun i => i % 2 == 0) [n] = [] := by
        simp [List.filter_cons, h]
      rw [h1, List.append_nil]
      have h2 : (n + 1 + 1) / 2 = (n + 1) / 2 := by omega
      rw [h2]

theorem filter_odd_range (n : Nat) :
    (List.range n).filter (fun i => !(i % 2 == 0))
      = (List.range (n / 2)).map (fun j => 2 * j + 1) := by
  induction n with
  | zero => rfl
  | succ n ih =>
    rw [List.range_succ, List.filter_append, ih]
    by_cases h : n % 2 = 0
    · have h1 : List.filter (fun i => !(i % 2 == 0)) [n] = [] := by
        simp [List.filter_cons, h]
      rw [h1, List.append_nil]
      have h2 : (n + 1) / 2 = n / 2 := by omega
      rw [h2]
    · have h1 : List.filter (fun i => !(i % 2 == 0)) [n] = [n] := by
        simp [List.filter_cons, h]
      rw [h1]
      have h2 : (n + 1) / 2 = n / 2 + 1 := by omega
      rw [h2, List.range_succ, List.map_append]
      have h3 : 2 * (n / 2) + 1 = n := by omega
      simp [h3]

/-- C1 counterexample: three lines of the matched movie m0 with texts
a, b, c; makeYearFiles returns prompts [a, c] and responses [b], so the
final unmatched line c is kept as a trailing prompt rather than
dropped, and the two sequences do not have equal length. -/
theorem makeYearFiles_odd_cex :
    makeYearFiles
        [⟨"L1", "C1", "m0", "N", "a"⟩, ⟨"L2", "C1", "m0", "N", "b"⟩, ⟨"L3", "C1", "m0", "N", "c"⟩]
        [⟨"m0", "t", "1940"⟩] "1940" = (["a", "c"], ["b"]) ∧
      ¬(["a", "c"] : List String).length = (["b"] : List String).length := by
  exact ⟨by decide, by decide⟩

/-- C1 (amended): makeYearFiles collects, in file order, the stripped
texts of exactly the lines whose movie id is in the year subset, and
pairs them by strict positional alternation; entry 2i of the collected
sequence becomes prompt i and entry 2i+1 becomes response i, so for an
odd-length collected sequence the final line remains as one extra
trailing prompt (prompt count is the rounded-up half, response count
the rounded-down half) and the returned sequences have equal length
only when the collected sequence has even length. -/
theorem makeYearFiles_spec (rows : List LineRow) (movies : List MovieRow) (movieYear : String) :
    (makeYearFiles rows movies movieYear).1.length
        = ((yearLines rows movies movieYear).length + 1) / 2 ∧
      (makeYearFiles rows movies movieYear).2.length
        = (yearLines rows movies movieYear).length / 2 ∧
      (∀ i, ((makeYearFiles rows movies movieYear).1)[i]?
        = (yearLines rows movies movieYear)[2 * i]?) ∧
      (∀ i, ((makeYearFiles rows movies movieYear).2)[i]?
        = (yearLines rows movies movieYear)[2 * i + 1]?) := by
  have hsplit1 : (makeYearFiles rows movies movieYear).1
      = (List.range (((yearLines rows movies movieYear).length + 1) / 2)).map
          (fun j => (yearLines rows movies movieYear).getD (2 * j) "") := by
    rw [makeYearFiles, parityPartition]
    show ((List.range _).filter _).map _ = _
    rw [filter_even_range, List.map_map]
    rfl
  have hsplit2 : (makeYearFiles rows movies movieYear).2
      = (List.range ((yearLines rows movies movieYear).length / 2)).map
          (fun j => (yearLines rows movies movieYear).getD (2 * j + 1) "") := by
    rw [makeYearFiles, parityPartition]
    show ((List.range _).filter _).map _ = _
    rw [filter_odd_range, List.map_map]
    rfl
  refine ⟨by rw [hsplit1]; simp, by rw [hsplit2]; simp, ?_, ?_⟩
  · intro i
    rw [hsplit1, List.getElem?_map]
    by_cases hi : i < ((yearLines rows movies movieYear).length + 1) / 2
    · rw [List.getElem?_range hi]
      have h2 : 2 * i < (yearLines rows movies movieYear).length := by omega
      simp [List.getD_eq_getElem?_getD, List.getElem?_eq_getElem h2]
    · rw [List.getElem?_eq_none (by simpa using Nat.le_of_not_lt hi)]
      rw [List.getElem?_eq_none
        (show (yearLines rows movies movieYear).length ≤ 2 * i by omega)]
      rfl
  · intro i
    rw [hsplit2, List.getElem?_map]
    by_cases hi : i < (yearLines rows movies movieYear).length / 2
    · rw [List.getElem?_range hi]
      have h2 : 2 * i + 1 < (yearLines rows movies movieYear).length := by omega
      simp [List.getD_eq_getElem?_getD, List.getElem?_eq_getElem h2]
    · rw [List.getElem?_eq_none (by simpa using Nat.le_of_not_lt hi)]
      rw [List.getElem?_eq_none
        (show (yearLines rows movies movieYear).length ≤ 2 * i + 1 by omega)]
      rfl

theorem join_foldl (l : List String) (a : String) :
    l.foldl (fun r s => r ++ s) a = a ++ String.join l := by
  induction l generalizing a with
  | nil => simp [String.join, String.append_empty]
  | cons x xs ih =>
    rw [List.foldl_cons, ih]
    have hx : String.join (x :: xs) = x ++ String.join xs := by
      rw [String.join, List.foldl_cons, show ("" ++ x : String) = x from String.empty_append x]
      exact ih x
    rw [hx, String.append_assoc]

theorem intercalate_go_spec (as : List String) (acc s : String) :
    String.intercalate.go acc s as = acc ++ String.join (as.map (fun l => s ++ l)) := by
  induction as generalizing acc with
  | nil => simp [String.intercalate.go, String.join, String.append_empty]
  | cons a as ih =>
    rw [String.intercalate.go, ih, List.map_cons]
    have hx : String.join ((s ++ a) :: as.map (fun l => s ++ l))
        = (s ++ a) ++ String.join (as.map (fun l => s ++ l)) := by
      rw [String.join, List.foldl_cons,
        show ("" ++ (s ++ a) : String) = s ++ a from String.empty_append _, join_foldl]
    rw [hx]
    simp [String.append_assoc]

theorem join_newline_shift (as : List String) :
    String.join (as.map (fun l => "\n" ++ l)) ++ "\n"
      = "\n" ++ String.join (as.map (fun l => l ++ "\n")) := by
  induction as with
  | nil => rw [List.map_nil, List.map_nil]; rfl
  | cons b bs ih =>
    have hjoin : ∀ (x : String) (xs : List String),
        String.join (x :: xs) = x ++ String.join xs := by
      intro x xs
      rw [String.join, List.foldl_cons,
        show ("" ++ x : String) = x from String.empty_append _, join_foldl]
    rw [List.map_cons, List.map_cons, hjoin, hjoin,
      String.append_assoc, String.append_assoc, ih]
    simp [String.append_assoc]

/-- C8 counterexample: writing the prompt lines a, b produces the file
content a, newline, b with no newline after the last line, not the
claimed concatenation of each line followed by a newline. -/
theorem writeToFile_no_trailing_cex :
    (writeToFile ["a", "b"] ["c"]).1 = "a\nb" ∧
      String.join ((["a", "b"] : List String).map (fun l => l ++ "\n")) = "a\nb\n" ∧
      ("a\nb" : String) ≠ "a\nb\n" := by
  exact ⟨rfl, rfl, by decide⟩

/-- C8 (amended): writeToFile writes each list of lines joined by
single newlines between consecutive lines and no newline after the
last line; for a non-empty list, appending one final newline to the
written content gives exactly the concatenation of each line followed
by a newline. -/
theorem writeToFile_content (prompt response : List String)
    (hp : prompt ≠ []) (hr : response ≠ []) :
    (writeToFile prompt response).1 ++ "\n"
        = String.join (prompt.map (fun l => l ++ "\n")) ∧
      (writeToFile prompt response).2 ++ "\n"
        = String.join (response.map (fun l => l ++ "\n")) := by
  have key : ∀ ls : List String, ls ≠ [] →
      String.intercalate "\n" ls ++ "\n" = String.join (ls.map (fun l => l ++ "\n")) := by
    intro ls hls
    match ls with
    | [] => exact absurd rfl hls
    | a :: as =>
      rw [show String.intercalate "\n" (a :: as) = String.intercalate.go a "\n" as from rfl]
      rw [intercalate_go_spec, String.append_assoc, join_newline_shift]
      rw [List.map_cons,
        show String.join ((a ++ "\n") :: as.map (fun l => l ++ "\n"))
            = (a ++ "\n") ++ String.join (as.map (fun l => l ++ "\n")) from by
          rw [String.join, List.foldl_cons,
            show ("" ++ (a ++ "\n") : String) = a ++ "\n" from String.empty_append _,
            join_foldl],
        String.append_assoc]
  exact ⟨key prompt hp, key response hr⟩

/-- C8 witness: the amended content statement instantiated on concrete
prompt and response lines. -/
theorem writeToFile_content_witness :
    (writeToFile ["a", "b"] ["c"]).1 ++ "\n"
        = String.join ((["a", "b"] : List String).map (fun l => l ++ "\n")) ∧
      (writeToFile ["a", "b"] ["c"]).2 ++ "\n"
        = String.join ((["c"] : List String).map (fun l => l ++ "\n")) :=
  writeToFile_content ["a", "b"] ["c"] (by decide) (by decide)

theorem sortInsert_perm (x : Nat) (l : List Nat) : (sortInsert x l).Perm (x :: l) := by
  induction l with
  | nil => exact List.Perm.refl _
  | cons y ys ih =>
    rw [sortInsert]
    by_cases h : x ≤ y
    · rw [if_pos h]
    · rw [if_neg h]
      exact (List.Perm.cons y ih).trans (List.Perm.swap x y ys)

theorem sortNat_perm (l : List Nat) : (sortNat l).Perm l := by
  induction l with
  | nil => exact List.Perm.refl _
  | cons x t ih =>
    show (sortInsert x (sortNat t)).Perm (x :: t)
    exact (sortInsert_perm x (sortNat t)).trans (List.Perm.cons x ih)

theorem filter_contains_length (l : Nat) (sample : List Nat)
    (hnd : sample.Nodup) (hlt : ∀ i ∈ sample, i < l) :
    ((List.range l).filter (fun i => sample.contains i)).length = sample.length := by
  have hA : ((List.range l).filter (fun i => sample.contains i)).Nodup :=
    (List.nodup_range l).filter _
  have h1 : ((List.range l).filter (fun i => sample.contains i)).Subperm sample := by
    apply List.subperm_of_subset hA
    intro x hx
    simpa using (List.mem_filter.mp hx).2
  have h2 : sample.Subperm ((List.range l).filter (fun i => sample.contains i)) := by
    apply List.subperm_of_subset hnd
    intro x hx
    rw [List.mem_filter]
    exact ⟨List.mem_range.mpr (hlt x hx), by simpa using hx⟩
  exact Nat.le_antisymm h1.length_le h2.length_le

theorem trainIndices_length (l : Nat) (sample : List Nat)
    (hnd : sample.Nodup) (hlt : ∀ i ∈ sample, i < l) :
    (trainIndices l sample).length + sample.length = l := by
  have h := List.length_eq_length_filter_add (l := List.range l)
    (fun i => sample.contains i)
  rw [List.length_range, filter_contains_length l sample hnd hlt] at h
  have h2 : List.filter (fun x => !(fun i => sample.contains i) x) (List.range l)
      = trainIndices l sample := rfl
  rw [h2] at h
  omega

theorem map_getD_filter_sublist {α : Type} [Inhabited α] (xs : List α) (p : Nat → Bool) :
    (((List.range xs.length).filter p).map (fun i => xs.getD i default)).Sublist xs := by
  induction xs using List.reverseRecOn with
  | nil => simp
  | append_singleton ys a ih =>
    have hlen : (ys ++ [a]).length = ys.length + 1 := by simp
    rw [hlen, List.range_succ, List.filter_append, List.map_append]
    have hmap : ((List.range ys.length).filter p).map (fun i => (ys ++ [a]).getD i default)
        = ((List.range ys.length).filter p).map (fun i => ys.getD i default) := by
      apply List.map_congr_left
      intro i hi
      exact List.getD_append ys [a] default i (List.mem_range.mp (List.mem_filter.mp hi).1)
    rw [hmap]
    by_cases hp : p ys.length = true
    · have hfa : List.filter p [ys.length] = [ys.length] := by
        simp [List.filter_cons, hp]
      rw [hfa]
      have hga : (ys ++ [a]).getD ys.length default = a := by
        rw [List.getD_eq_getElem?_getD, List.getElem?_append_right (Nat.le_refl _)]
        simp
      rw [show List.map (fun i => (ys ++ [a]).getD i default) [ys.length] = [a] from by
        rw [List.map_cons, List.map_nil, hga]]
      exact List.Sublist.append_right ih [a]
    · have hfa : List.filter p [ys.length] = [] := by
        simp [List.filter_cons, hp]
      rw [hfa, List.map_nil, List.append_nil]
      exact ih.trans (List.sublist_append_left ys [a])

theorem makeTrainTest_cons {α : Type} [Inhabited α] (arg0 : List α) (rest : List (List α))
    (sample : List Nat) :
    makeTrainTest (arg0 :: rest) sample
      = if (arg0 :: rest).all (fun arg => arg.length == arg0.length) then
          Except.ok
            ((arg0 :: rest).map (fun arg =>
                (trainIndices arg0.length sample).map (fun i => arg.getD i default)),
             (arg0 :: rest).map (fun arg =>
                (sortNat sample).map (fun i => arg.getD i default)))
        else Except.error () := rfl

/-- C9: makeTrainTest asserts that all argument sequences share the
first argument's length.  On a length mismatch it fails for every
possible sample, so before and independently of any sampling; under the
equal-length precondition it never fails and applies the same train
index list and the same test index list to every argument. -/
theorem makeTrainTest_assert {α : Type} [Inhabited α] (arg0 : List α) (rest : List (List α)) :
    ((∃ arg ∈ arg0 :: rest, arg.length ≠ arg0.length) →
      ∀ sample, makeTrainTest (arg0 :: rest) sample = Except.error ()) ∧
      ((∀ arg ∈ arg0 :: rest, arg.length = arg0.length) →
        ∀ sample, makeTrainTest (arg0 :: rest) sample
          = Except.ok
              ((arg0 :: rest).map (fun arg =>
                  (trainIndices arg0.length sample).map (fun i => arg.getD i default)),
               (arg0 :: rest).map (fun arg =>
                  (sortNat sample).map (fun i => arg.getD i default)))) := by
  constructor
  · rintro ⟨arg, hmem, hne⟩ sample
    rw [makeTrainTest_cons]
    have hall : (arg0 :: rest).all (fun arg => arg.length == arg0.length) = false :=
      List.all_eq_false.mpr ⟨arg, hmem, by simpa using hne⟩
    rw [if_neg (by simp [hall])]
  · intro hall sample
    rw [makeTrainTest_cons]
    have h2 : (arg0 :: rest).all (fun arg => arg.length == arg0.length) = true :=
      List.all_eq_true.mpr (fun arg hmem => by simpa using hall arg hmem)
    rw [if_pos h2]

/-- C9 witness: the assertion statement instantiated on a mismatched
pair of argument lists and on an equal-length pair. -/
theorem makeTrainTest_assert_witness :
    makeTrainTest [["a"], ["b", "c"]] [0] = Except.error () ∧
      makeTrainTest [["a", "b"], ["c", "d"]] [0]
        = Except.ok ([["b"], ["d"]], [["a"], ["c"]]) := by
  constructor
  · exact (makeTrainTest_assert ["a"] [["b", "c"]]).1 ⟨["b", "c"], by simp, by simp⟩ [0]
  · exact ((makeTrainTest_assert ["a", "b"] [["c", "d"]]).2 (by decide) [0]).trans (by rfl)

/-- C4: with the sample standing for the result of random.sample —
a duplicate-free list of indices below the input length whose size is
the Python rounding of testFraction times the length — makeTrainTest
splits the input so that the test output has exactly that sampled size,
train and test sizes sum to the input length, the train and test index
sets are disjoint with union the full index set, and the train output
is a subsequence of the input, preserving its relative order. -/
theorem makeTrainTest_partition {α : Type} [Inhabited α] (xs : List α) (testFraction : ℚ)
    (sample : List Nat)
    (hf0 : 0 ≤ testFraction) (hf1 : testFraction ≤ 1)
    (hnd : sample.Nodup) (hlt : ∀ i ∈ sample, i < xs.length)
    (hcard : sample.length = (pythonRound (testFraction * xs.length)).toNat) :
    makeTrainTest [xs] sample
        = Except.ok ([(trainIndices xs.length sample).map (fun i => xs.getD i default)],
            [(sortNat sample).map (fun i => xs.getD i default)]) ∧
      ((sortNat sample).map (fun i => xs.getD i default)).length
          = (pythonRound (testFraction * xs.length)).toNat ∧
      ((trainIndices xs.length sample).map (fun i => xs.getD i default)).length
          + ((sortNat sample).map (fun i => xs.getD i default)).length = xs.length ∧
      ((trainIndices xs.length sample).map (fun i => xs.getD i default)).Sublist xs ∧
      (∀ i ∈ trainIndices xs.length sample, i ∉ sample) ∧
      (∀ i, i < xs.length → i ∈ trainIndices xs.length sample ∨ i ∈ sample) ∧
      (∀ i, i ∈ sortNat sample ↔ i ∈ sample) := by
  refine ⟨?_, ?_, ?_, ?_, ?_, ?_, ?_⟩
  · rw [makeTrainTest_cons, if_pos (by simp)]
    rfl
  · rw [List.length_map, (sortNat_perm sample).length_eq, hcard]
  · rw [List.length_map, List.length_map, (sortNat_perm sample).length_eq]
    exact trainIndices_length xs.length sample hnd hlt
  · exact map_getD_filter_sublist xs _
  · intro i hi
    have h := (List.mem_filter.mp hi).2
    simp only [Bool.not_eq_true] at h
    intro hmem
    rw [show sample.contains i = true from by simpa using hmem] at h
    cases h
  · intro i hilt
    by_cases hc : i ∈ sample
    · exact Or.inr hc
    · refine Or.inl (List.mem_filter.mpr ⟨List.mem_range.mpr hilt, ?_⟩)
      simpa using hc
  · exact fun i => (sortNat_perm sample).mem_iff

/-- C4 witness: the partition statement instantiated on a four-element
input with testFraction one quarter and the sampled index 2. -/
theorem makeTrainTest_partition_witness :
    makeTrainTest [["a", "b", "c", "d"]] [2] = Except.ok ([["a", "b", "d"]], [["c"]]) :=
  ((makeTrainTest_partition ["a", "b", "c", "d"] (1 / 4) [2]
    (by norm_num) (by norm_num) (by decide) (by decide)
    (by norm_num [pythonRound, Int.fract])).1).trans (by rfl)

